import Mathlib

/-
Verification of the valradar orchestrator (src/orchestrator.rs, with the
plugin yield-collection loop of src/plugin.rs and the data model of
src/utils/context.rs).

Shallow embedding notes:
- Rust `HashMap<String, String>` is modelled as an association list
  (`Kwargs`) whose observable behaviour is `hmGet` (first match wins);
  `HashMap::extend`, which inserts the update's pairs one by one with
  later inserts overwriting earlier ones, is modelled by `hmExtend`,
  which conses the update's pairs in order onto the front, so that a
  later pair of the update shadows an earlier one and every pair of the
  update shadows the base (exactly `extend`'s lookup behaviour).
- Rust `HashSet<String>` (the `visited` set) is modelled as a `List String`
  into which `mark_visited` inserts only targets not already present, so
  it stays duplicate-free and its length is the set's size.
- The concurrent worker pool is modelled twice, at the granularity of the
  source's critical sections:
  (1) a small-step transition relation `Step` whose atomic transitions are
      exactly the lock/atomic-protected sections of `Orchestrator::run`
      (the seeding admission of lines 80-87, the dequeue-and-ticket
      section of lines 117-128, the per-yield sections of lines 135-161,
      and the shutdown store of the quiescence protocol, lines 172-194);
      yields may fire at any time, which over-approximates the set of
      interleavings, so every invariant proved over `Reach` holds of every
      real interleaving;
  (2) a sequential executable interpreter (`worker_loop`, `run`) used for
      the control-flow claims (pre-flight error, error isolation, the
      latched-shutdown second run), with recursion fuel standing for the
      unbounded loop.
- Channel sends during seeding cannot fail in the source (the receiver is
  live in the same scope), so seeding is modelled as total.
-/

namespace Valradar

/-- Model of `HashMap<String, String>`: an association list observed
through first-match lookup. -/
abbrev Kwargs := List (String × String)

/-- Lookup in the association-list model of a hash map: first match wins. -/
def hmGet : Kwargs → String → Option String
  | [], _ => none
  | (k, v) :: rest, key => if k = key then some v else hmGet rest key

/-- Model of `HashMap::extend`: insert every pair of `upd` in order, each
insert overwriting any earlier binding of the same key.  Consing onto the
front makes a later insert shadow every earlier binding under `hmGet`. -/
def hmExtend (base upd : Kwargs) : Kwargs :=
  upd.foldl (fun acc kv => kv :: acc) base

/-- `TaskRequest` from src/utils/context.rs lines 13-16: a discovery
emitted by an execution. -/
structure TaskRequest where
  target : String
  kwargs : Kwargs
deriving DecidableEq, Repr

/-- `ProcessingResult` from src/utils/context.rs lines 61-65. -/
structure ProcessingResult where
  keys : List String
  values : List String
  host : String
deriving DecidableEq, Repr

/-- `YieldValue` from src/utils/context.rs lines 33-38. -/
inductive YieldValue where
  | result (r : ProcessingResult)
  | task (t : TaskRequest)
deriving DecidableEq, Repr

/-- `WorkItem` from src/orchestrator.rs lines 14-17. -/
structure WorkItem where
  target : String
  kwargs : Kwargs
deriving DecidableEq, Repr

/-- The shared state of `Orchestrator` (src/orchestrator.rs lines 20-30)
together with the work-queue channel contents and three ghost histories
used only to state the claims: `dispatched` records the targets of work
items actually handed to `Plugin::run_target`, `dropped` records the
targets of work items dequeued by the worker that trips the `max_tasks`
cap (dequeued but never dispatched, lines 120-125), and `observed`
records every target string ever seen (each seed occurrence and each
discovered `TaskRequest.target`). -/
structure OState where
  visited : List String
  queue : List WorkItem
  results : List ProcessingResult
  tasks_processed : Nat
  shutdown : Bool
  dispatched : List String
  dropped : List String
  observed : List String
deriving DecidableEq, Repr

/-- The state produced by `Orchestrator::new` (lines 34-46): empty visited
set, empty results, zero counter, shutdown latch cleared. -/
def init : OState :=
  { visited := [], queue := [], results := [], tasks_processed := 0,
    shutdown := false, dispatched := [], dropped := [], observed := [] }

/-- `Orchestrator::mark_visited` (lines 60-68): a single critical section
that checks membership and inserts when absent, returning whether the
target is new.  The lock makes the check and the insert one atomic
operation; the model renders that by making the whole function one
transition. -/
def mark_visited (visited : List String) (t : String) : Bool × List String :=
  if t ∈ visited then (false, visited) else (true, t :: visited)

/-- The kwargs merge of lines 151-152: clone the initial kwargs, then
`extend` with the task's kwargs, so the task's bindings win on collision. -/
def merge_kwargs (ik tk : Kwargs) : Kwargs :=
  hmExtend ik tk

/-- Seeding one initial target (lines 80-87): admit through
`mark_visited`; only a newly admitted target is sent to the queue, paired
with the initial kwargs.  The ghost `observed` logs the occurrence. -/
def process_seed (ik : Kwargs) (s : OState) (t : String) : OState :=
  let r := mark_visited s.visited t
  if r.1 then
    { s with visited := r.2, queue := s.queue ++ [⟨t, ik⟩],
             observed := s.observed ++ [t] }
  else
    { s with visited := r.2, observed := s.observed ++ [t] }

/-- The seeding loop of lines 80-87 over the whole seed list. -/
def seed_targets (ik : Kwargs) (s : OState) (ts : List String) : OState :=
  ts.foldl (process_seed ik) s

/-- Handling of one yield (lines 135-161).  A `Result` is appended to the
aggregator (lines 137-140).  A `Task` goes through the inline
check-and-insert on the visited set (lines 143-146); a newly admitted
target is enqueued with merged kwargs only when the shutdown latch reads
false at that moment (lines 148-158) — an admission that observes
shutdown true is dropped. -/
def process_yield (ik : Kwargs) (s : OState) (y : YieldValue) : OState :=
  match y with
  | .result r => { s with results := s.results ++ [r] }
  | .task t =>
    if t.target ∈ s.visited then
      { s with observed := s.observed ++ [t.target] }
    else
      if s.shutdown then
        { s with visited := t.target :: s.visited,
                 observed := s.observed ++ [t.target] }
      else
        { s with visited := t.target :: s.visited,
                 observed := s.observed ++ [t.target],
                 queue := s.queue ++ [⟨t.target, merge_kwargs ik t.kwargs⟩] }

/-- Lines 133-170: the outcome of `Plugin::run_target` for a dispatched
item.  On `Ok`, each yield is processed in order; on `Err`, the failure is
only logged (lines 164-169) and the state is untouched. -/
def handle_run_target (ik : Kwargs) (s : OState)
    (outcome : Except String (List YieldValue)) : OState :=
  match outcome with
  | .ok ys => ys.foldl (process_yield ik) s
  | .error _ => s

/-- The dequeue ticket section of lines 117-128, with the dequeued item
already removed from `s.queue`.  When `max_tasks > 0` the counter is
atomically fetch-and-incremented; a pre-increment value at or above the
cap sets shutdown and the item is dropped without dispatch (ghost
`dropped`), otherwise — and always when `max_tasks = 0` — the counter is
incremented and the item is dispatched (ghost `dispatched`).  Note the
counter is incremented in both branches, exactly as `fetch_add` on line
121 runs before the comparison on line 122. -/
def dequeue_ticket (cap : Nat) (s : OState) (w : WorkItem) : OState :=
  if 0 < cap then
    if cap ≤ s.tasks_processed then
      { s with tasks_processed := s.tasks_processed + 1, shutdown := true,
               dropped := s.dropped ++ [w.target] }
    else
      { s with tasks_processed := s.tasks_processed + 1,
               dispatched := s.dispatched ++ [w.target] }
  else
    { s with tasks_processed := s.tasks_processed + 1,
             dispatched := s.dispatched ++ [w.target] }

/-- One dequeued item handled end to end by a worker (lines 117-170):
take a ticket; if the cap tripped, stop without dispatching; otherwise
dispatch to the plugin capability `p` and process its outcome. -/
def process_item (p : String → Kwargs → Except String (List YieldValue))
    (cap : Nat) (ik : Kwargs) (s : OState) (w : WorkItem) : OState :=
  if 0 < cap ∧ cap ≤ s.tasks_processed then
    dequeue_ticket cap s w
  else
    handle_run_target ik (dequeue_ticket cap s w) (p w.target w.kwargs)

/-- The worker loop (lines 110-199), sequentialised: check the shutdown
latch at the top of each iteration (lines 112-114); an empty queue ends
the run through the quiescence protocol, which sets the shutdown latch
(lines 172-194); otherwise dequeue the head item and handle it.  `fuel`
bounds the recursion in place of the unbounded `loop`. -/
def worker_loop (p : String → Kwargs → Except String (List YieldValue))
    (cap : Nat) (ik : Kwargs) : Nat → OState → OState
  | 0, s => s
  | fuel + 1, s =>
    if s.shutdown then s
    else
      match s.queue with
      | [] => { s with shutdown := true }
      | w :: rest =>
        worker_loop p cap ik fuel (process_item p cap ik { s with queue := rest } w)

/-- `Orchestrator::run` (lines 71-218): fail with "No workers specified"
before touching the queue when the worker count is zero (lines 72-74);
otherwise seed the queue with deduplication and run the pool to
completion, always returning `ok` (lines 215-218).  The prior shared
state `s` is an input — `run` never resets `visited`, `results`,
`tasks_processed` or the `shutdown` latch. -/
def run (p : String → Kwargs → Except String (List YieldValue))
    (num_workers cap : Nat) (ik : Kwargs) (fuel : Nat) (s : OState)
    (seeds : List String) : Except String OState :=
  if num_workers = 0 then Except.error "No workers specified"
  else Except.ok (worker_loop p cap ik fuel (seed_targets ik s seeds))

/-- `Orchestrator::targets_visited` (lines 226-228): the size of the
visited set; the model's list is duplicate-free, so its length is the
`HashSet::len`. -/
def targets_visited (s : OState) : Nat :=
  s.visited.length

/-- The yield-collection loop of `Plugin::run_target` (src/plugin.rs lines
265-316): items are drawn one at a time; the first failing item aborts
the whole call with that error, discarding every yield collected so far
(`let item = item?;` on line 276 returns out of the function). -/
def collect_yields : List (Except String YieldValue) →
    Except String (List YieldValue)
  | [] => Except.ok []
  | Except.error e :: _ => Except.error e
  | Except.ok y :: rest =>
    match collect_yields rest with
    | Except.ok ys => Except.ok (y :: ys)
    | Except.error e => Except.error e

/-- The atomic transitions of a run, one per critical section of
`Orchestrator::run` (granularity documented at the top of the file).
`seed`: the admission of one initial target (lines 80-87); `deq`: a worker
dequeues the head work item and takes a ticket (lines 117-128); `yld`: a
worker processes one yield of an in-flight execution (lines 135-161) —
allowed at any time, an over-approximation of the real interleavings;
`quiesce`: the last idle worker of the termination protocol observes an
empty queue and sets the shutdown latch (lines 172-182). -/
inductive Step (cap : Nat) (ik : Kwargs) : OState → OState → Prop where
  | seed (s : OState) (t : String) : Step cap ik s (process_seed ik s t)
  | deq (s : OState) (w : WorkItem) (rest : List WorkItem)
      (hq : s.queue = w :: rest) :
      Step cap ik s (dequeue_ticket cap { s with queue := rest } w)
  | yld (s : OState) (y : YieldValue) : Step cap ik s (process_yield ik s y)
  | quiesce (s : OState) (hq : s.queue = []) :
      Step cap ik s { s with shutdown := true }

/-- States reachable from the fresh orchestrator state by run transitions. -/
def Reach (cap : Nat) (ik : Kwargs) (s : OState) : Prop :=
  Relation.ReflTransGen (Step cap ik) init s

/-- How many times target `t` occurs among all work items ever created:
still queued, dispatched, or dequeued-and-dropped at the cap. -/
def seenCount (s : OState) (t : String) : Nat :=
  (s.queue.map WorkItem.target).count t + s.dispatched.count t + s.dropped.count t

/-- The run invariant: every target has at most one work item ever created
for it; every such target went through the visited set; the visited set is
duplicate-free and holds exactly the distinct targets ever observed; the
processed counter counts exactly the dequeued items (dispatched plus
cap-dropped); and with a positive cap the dispatch count never exceeds it. -/
def Inv (cap : Nat) (s : OState) : Prop :=
  (∀ t, seenCount s t ≤ 1)
  ∧ (∀ t, 0 < seenCount s t → t ∈ s.visited)
  ∧ s.visited.Nodup
  ∧ (∀ t, t ∈ s.visited ↔ t ∈ s.observed)
  ∧ s.tasks_processed = s.dispatched.length + s.dropped.length
  ∧ (0 < cap → s.dispatched.length ≤ cap)

theorem inv_init (cap : Nat) : Inv cap init := by
  simp [Inv, seenCount, init]


theorem inv_observe (cap : Nat) (s : OState) (t : String)
    (hv : t ∈ s.visited) (h : Inv cap s) :
    Inv cap { s with observed := s.observed ++ [t] } := by
  obtain ⟨h1, h2, h3, h4, h5, h6⟩ := h
  refine ⟨h1, h2, h3, ?_, h5, h6⟩
  intro u
  have hu := h4 u
  simp only [List.mem_append, List.mem_singleton, List.mem_cons,
    List.not_mem_nil, or_false]
  constructor
  · intro hm
    exact Or.inl (hu.mp hm)
  · rintro (hm | rfl)
    · exact hu.mpr hm
    · exact hv

theorem inv_admit_dropped (cap : Nat) (s : OState) (t : String)
    (hv : t ∉ s.visited) (h : Inv cap s) :
    Inv cap { s with visited := t :: s.visited,
                     observed := s.observed ++ [t] } := by
  obtain ⟨h1, h2, h3, h4, h5, h6⟩ := h
  refine ⟨h1, ?_, List.nodup_cons.mpr ⟨hv, h3⟩, ?_, h5, h6⟩
  · intro u hu
    exact List.mem_cons_of_mem _ (h2 u hu)
  · intro u
    have hu := h4 u
    simp only [List.mem_cons, List.mem_append, List.mem_singleton,
      List.not_mem_nil, or_false]
    constructor
    · rintro (rfl | hm)
      · exact Or.inr rfl
      · exact Or.inl (hu.mp hm)
    · rintro (hm | rfl)
      · exact Or.inr (hu.mpr hm)
      · exact Or.inl rfl

theorem inv_admit (cap : Nat) (s : OState) (t : String) (kw : Kwargs)
    (hv : t ∉ s.visited) (h : Inv cap s) :
    Inv cap { s with visited := t :: s.visited,
                     queue := s.queue ++ [⟨t, kw⟩],
                     observed := s.observed ++ [t] } := by
  obtain ⟨h1, h2, h3, h4, h5, h6⟩ := h
  have hzero : seenCount s t = 0 := by
    by_contra hne
    exact hv (h2 t (Nat.pos_of_ne_zero hne))
  have hc : ∀ u, seenCount { s with visited := t :: s.visited,
                                    queue := s.queue ++ [⟨t, kw⟩],
                                    observed := s.observed ++ [t] } u
      = seenCount s u + if u = t then 1 else 0 := by
    intro u
    by_cases hu : u = t
    · subst hu
      simp [seenCount, List.count_append, List.count_singleton]
      omega
    · simp [seenCount, List.count_append, List.count_singleton, hu]
  refine ⟨?_, ?_, List.nodup_cons.mpr ⟨hv, h3⟩, ?_, h5, h6⟩
  · intro u
    rw [hc u]
    by_cases hu : u = t
    · subst hu; rw [hzero]; simp
    · simp only [hu, if_false, Nat.add_zero]; exact h1 u
  · intro u hu
    rw [hc u] at hu
    by_cases hut : u = t
    · subst hut; exact List.mem_cons_self _ _
    · simp only [hut, if_false, Nat.add_zero] at hu
      exact List.mem_cons_of_mem _ (h2 u hu)
  · intro u
    have hu := h4 u
    simp only [List.mem_cons, List.mem_append, List.mem_singleton,
      List.not_mem_nil, or_false]
    constructor
    · rintro (rfl | hm)
      · exact Or.inr rfl
      · exact Or.inl (hu.mp hm)
    · rintro (hm | rfl)
      · exact Or.inr (hu.mpr hm)
      · exact Or.inl rfl

theorem inv_process_seed (cap : Nat) (ik : Kwargs) (s : OState) (t : String)
    (h : Inv cap s) : Inv cap (process_seed ik s t) := by
  by_cases hv : t ∈ s.visited
  · have he : process_seed ik s t = { s with observed := s.observed ++ [t] } := by
      simp [process_seed, mark_visited, hv]
    rw [he]; exact inv_observe cap s t hv h
  · have he : process_seed ik s t
        = { s with visited := t :: s.visited,
                   queue := s.queue ++ [⟨t, ik⟩],
                   observed := s.observed ++ [t] } := by
      simp [process_seed, mark_visited, hv]
    rw [he]; exact inv_admit cap s t ik hv h

theorem inv_process_yield (cap : Nat) (ik : Kwargs) (s : OState) (y : YieldValue)
    (h : Inv cap s) : Inv cap (process_yield ik s y) := by
  obtain ⟨h1, h2, h3, h4, h5, h6⟩ := h
  cases y with
  | result r => exact ⟨h1, h2, h3, h4, h5, h6⟩
  | task t =>
    by_cases hv : t.target ∈ s.visited
    · have he : process_yield ik s (.task t)
          = { s with observed := s.observed ++ [t.target] } := by
        simp [process_yield, hv]
      rw [he]; exact inv_observe cap s t.target hv ⟨h1, h2, h3, h4, h5, h6⟩
    · by_cases hsh : s.shutdown = true
      · have he : process_yield ik s (.task t)
            = { s with visited := t.target :: s.visited,
                       observed := s.observed ++ [t.target] } := by
          simp [process_yield, hv, hsh]
        rw [he]
        exact inv_admit_dropped cap s t.target hv ⟨h1, h2, h3, h4, h5, h6⟩
      · have he : process_yield ik s (.task t)
            = { s with visited := t.target :: s.visited,
                       queue := s.queue ++ [⟨t.target, merge_kwargs ik t.kwargs⟩],
                       observed := s.observed ++ [t.target] } := by
          simp [process_yield, hv, hsh]
        rw [he]
        exact inv_admit cap s t.target (merge_kwargs ik t.kwargs) hv
          ⟨h1, h2, h3, h4, h5, h6⟩

theorem seenCount_drop_eq (s : OState) (w : WorkItem) (rest : List WorkItem)
    (hq : s.queue = w :: rest) (u : String) :
    seenCount { s with queue := rest, tasks_processed := s.tasks_processed + 1,
                       shutdown := true, dropped := s.dropped ++ [w.target] } u
      = seenCount s u := by
  by_cases hu : u = w.target
  · subst hu
    simp [seenCount, hq, List.count_append, List.count_cons, List.count_singleton]
    omega
  · simp [seenCount, hq, List.count_append, List.count_cons,
      List.count_singleton, hu]

theorem seenCount_dispatch_eq (s : OState) (w : WorkItem) (rest : List WorkItem)
    (hq : s.queue = w :: rest) (u : String) :
    seenCount { s with queue := rest, tasks_processed := s.tasks_processed + 1,
                       dispatched := s.dispatched ++ [w.target] } u
      = seenCount s u := by
  by_cases hu : u = w.target
  · subst hu
    simp [seenCount, hq, List.count_append, List.count_cons, List.count_singleton]
    omega
  · simp [seenCount, hq, List.count_append, List.count_cons,
      List.count_singleton, hu]

theorem inv_dequeue_ticket (cap : Nat) (s : OState) (w : WorkItem)
    (rest : List WorkItem) (hq : s.queue = w :: rest) (h : Inv cap s) :
    Inv cap (dequeue_ticket cap { s with queue := rest } w) := by
  obtain ⟨h1, h2, h3, h4, h5, h6⟩ := h
  by_cases hcap : 0 < cap
  · by_cases hle : cap ≤ s.tasks_processed
    · have hd : dequeue_ticket cap { s with queue := rest } w
          = { s with queue := rest, tasks_processed := s.tasks_processed + 1,
                     shutdown := true, dropped := s.dropped ++ [w.target] } := by
        simp [dequeue_ticket, hcap, hle]
      rw [hd]
      refine ⟨?_, ?_, h3, h4, ?_, ?_⟩
      · intro u
        rw [seenCount_drop_eq s w rest hq u]
        exact h1 u
      · intro u hu
        rw [seenCount_drop_eq s w rest hq u] at hu
        exact h2 u hu
      · simp only [List.length_append, List.length_singleton]
        omega
      · intro hc
        exact h6 hc
    · have hd : dequeue_ticket cap { s with queue := rest } w
          = { s with queue := rest, tasks_processed := s.tasks_processed + 1,
                     dispatched := s.dispatched ++ [w.target] } := by
        simp [dequeue_ticket, hcap, hle]
      rw [hd]
      have hlt : s.tasks_processed < cap := Nat.lt_of_not_le hle
      refine ⟨?_, ?_, h3, h4, ?_, ?_⟩
      · intro u
        rw [seenCount_dispatch_eq s w rest hq u]
        exact h1 u
      · intro u hu
        rw [seenCount_dispatch_eq s w rest hq u] at hu
        exact h2 u hu
      · simp only [List.length_append, List.length_singleton]
        omega
      · intro _
        simp only [List.length_append, List.length_singleton]
        omega
  · have hd : dequeue_ticket cap { s with queue := rest } w
        = { s with queue := rest, tasks_processed := s.tasks_processed + 1,
                   dispatched := s.dispatched ++ [w.target] } := by
      simp [dequeue_ticket, hcap]
    rw [hd]
    refine ⟨?_, ?_, h3, h4, ?_, ?_⟩
    · intro u
      rw [seenCount_dispatch_eq s w rest hq u]
      exact h1 u
    · intro u hu
      rw [seenCount_dispatch_eq s w rest hq u] at hu
      exact h2 u hu
    · simp only [List.length_append, List.length_singleton]
      omega
    · intro hc
      exact absurd hc hcap

theorem inv_set_shutdown (cap : Nat) (s : OState) (h : Inv cap s) :
    Inv cap { s with shutdown := true } := by
  obtain ⟨h1, h2, h3, h4, h5, h6⟩ := h
  exact ⟨h1, h2, h3, h4, h5, h6⟩

theorem inv_step {cap : Nat} {ik : Kwargs} {s s' : OState}
    (hstep : Step cap ik s s') (h : Inv cap s) : Inv cap s' := by
  cases hstep with
  | seed t => exact inv_process_seed cap ik s t h
  | deq w rest hq => exact inv_dequeue_ticket cap s w rest hq h
  | yld y => exact inv_process_yield cap ik s y h
  | quiesce hq => exact inv_set_shutdown cap s h

theorem reach_inv {cap : Nat} {ik : Kwargs} {s : OState}
    (h : Reach cap ik s) : Inv cap s := by
  induction h with
  | refl => exact inv_init cap
  | tail _ hstep ih => exact inv_step hstep ih

theorem hmGet_eq_none_of_not_mem (m : Kwargs) (k : String)
    (h : k ∉ m.map Prod.fst) : hmGet m k = none := by
  induction m with
  | nil => rfl
  | cons kv rest ih =>
    obtain ⟨k1, v1⟩ := kv
    simp only [List.map_cons, List.mem_cons] at h
    push_neg at h
    simp only [hmGet, if_neg (fun hh : k1 = k => h.1 hh.symm)]
    exact ih h.2

theorem hmGet_hmExtend (tk : Kwargs) :
    ∀ (ik : Kwargs) (k : String), (tk.map Prod.fst).Nodup →
      hmGet (hmExtend ik tk) k
        = match hmGet tk k with
          | some v => some v
          | none => hmGet ik k := by
  induction tk with
  | nil =>
    intro ik k _
    simp [hmExtend, hmGet]
  | cons kv rest ih =>
    intro ik k hn
    obtain ⟨k1, v1⟩ := kv
    simp only [List.map_cons, List.nodup_cons] at hn
    have hstep : hmExtend ik ((k1, v1) :: rest) = hmExtend ((k1, v1) :: ik) rest := by
      simp [hmExtend]
    rw [hstep, ih ((k1, v1) :: ik) k hn.2]
    by_cases hk : k1 = k
    · subst hk
      rw [hmGet_eq_none_of_not_mem rest k1 hn.1]
      simp [hmGet]
    · simp only [hmGet, if_neg hk]

theorem process_seed_frame (ik : Kwargs) (s : OState) (t : String) :
    (process_seed ik s t).results = s.results
    ∧ (process_seed ik s t).dispatched = s.dispatched
    ∧ (process_seed ik s t).dropped = s.dropped
    ∧ (process_seed ik s t).tasks_processed = s.tasks_processed
    ∧ (process_seed ik s t).shutdown = s.shutdown := by
  by_cases hv : t ∈ s.visited <;> simp [process_seed, mark_visited, hv]

theorem seed_targets_frame (ik : Kwargs) (ts : List String) :
    ∀ s : OState,
      (seed_targets ik s ts).results = s.results
      ∧ (seed_targets ik s ts).dispatched = s.dispatched
      ∧ (seed_targets ik s ts).dropped = s.dropped
      ∧ (seed_targets ik s ts).tasks_processed = s.tasks_processed
      ∧ (seed_targets ik s ts).shutdown = s.shutdown := by
  induction ts with
  | nil =>
    intro s
    exact ⟨rfl, rfl, rfl, rfl, rfl⟩
  | cons t rest ih =>
    intro s
    have h1 := process_seed_frame ik s t
    have h2 := ih (process_seed ik s t)
    exact ⟨h2.1.trans h1.1, h2.2.1.trans h1.2.1, h2.2.2.1.trans h1.2.2.1,
      h2.2.2.2.1.trans h1.2.2.2.1, h2.2.2.2.2.trans h1.2.2.2.2⟩

theorem seed_targets_visited_mono (ik : Kwargs) (ts : List String) :
    ∀ (s : OState) (t : String),
      t ∈ s.visited → t ∈ (seed_targets ik s ts).visited := by
  induction ts with
  | nil =>
    intro s t ht
    exact ht
  | cons u rest ih =>
    intro s t ht
    apply ih (process_seed ik s u) t
    by_cases hv : u ∈ s.visited
    · simpa [process_seed, mark_visited, hv] using ht
    · simp only [process_seed, mark_visited, hv, if_false, if_true]
      exact List.mem_cons_of_mem _ ht

theorem seed_targets_mem (ik : Kwargs) (ts : List String) :
    ∀ (s : OState) (t : String),
      (t ∈ (seed_targets ik s ts).queue.map WorkItem.target ↔
        t ∈ s.queue.map WorkItem.target ∨ (t ∈ ts ∧ t ∉ s.visited))
      ∧ (t ∈ (seed_targets ik s ts).visited ↔ t ∈ s.visited ∨ t ∈ ts) := by
  induction ts with
  | nil =>
    intro s t
    simp [seed_targets]
  | cons u rest ih =>
    intro s t
    have ihh := ih (process_seed ik s u) t
    have hrw : seed_targets ik s (u :: rest) = seed_targets ik (process_seed ik s u) rest := rfl
    rw [hrw]
    by_cases hv : u ∈ s.visited
    · by_cases htu : t = u
      · subst htu
        constructor
        · rw [ihh.1]
          simp [process_seed, mark_visited, hv]
        · rw [ihh.2]
          simp [process_seed, mark_visited, hv]
      · constructor
        · rw [ihh.1]
          simp only [process_seed, mark_visited, hv, if_true, if_false,
            List.mem_cons]
          tauto
        · rw [ihh.2]
          simp only [process_seed, mark_visited, hv, if_true, if_false,
            List.mem_cons]
          tauto
    · by_cases htu : t = u
      · subst htu
        constructor
        · rw [ihh.1]
          simp [process_seed, mark_visited, hv, List.mem_append]
        · rw [ihh.2]
          simp [process_seed, mark_visited, hv]
      · constructor
        · rw [ihh.1]
          simp only [process_seed, mark_visited, hv, if_false, if_true,
            List.map_append, List.mem_append, List.map_cons, List.map_nil,
            List.mem_singleton, List.mem_cons, htu]
          tauto
        · rw [ihh.2]
          simp only [process_seed, mark_visited, hv, if_false, if_true,
            List.mem_cons, htu]
          tauto

theorem worker_loop_of_shutdown (p : String → Kwargs → Except String (List YieldValue))
    (cap : Nat) (ik : Kwargs) (fuel : Nat) (s : OState)
    (hsh : s.shutdown = true) : worker_loop p cap ik fuel s = s := by
  cases fuel with
  | zero => rfl
  | succ f => simp [worker_loop, hsh]

theorem reach_seed_targets (cap : Nat) (ik : Kwargs) (ts : List String) :
    ∀ s : OState, Reach cap ik s → Reach cap ik (seed_targets ik s ts) := by
  induction ts with
  | nil =>
    intro s h
    exact h
  | cons u rest ih =>
    intro s h
    exact ih (process_seed ik s u) (h.tail (Step.seed s u))

/-- C1: `mark_visited` returns true iff the target was not previously in
the visited set, and inserts it, as one atomic critical section (one
transition of the model); consequently, in every reachable state of a
run, the work items ever created — still queued, dispatched, or dequeued
at the cap — have pairwise distinct targets, so at most one `WorkItem` is
ever created per target and no target is dispatched to the plugin
capability more than once, for seeds and discoveries alike. -/
theorem mark_visited_admits_once (cap : Nat) (ik : Kwargs) (s : OState)
    (h : Reach cap ik s) :
    (∀ (v : List String) (t : String),
      ((mark_visited v t).1 = true ↔ t ∉ v) ∧ t ∈ (mark_visited v t).2)
    ∧ (s.queue.map WorkItem.target ++ s.dispatched ++ s.dropped).Nodup := by
  obtain ⟨h1, _, _, _, _, _⟩ := reach_inv h
  constructor
  · intro v t
    constructor
    · by_cases hv : t ∈ v <;> simp [mark_visited, hv]
    · by_cases hv : t ∈ v <;> simp [mark_visited, hv]
  · rw [List.nodup_iff_count_le_one]
    intro a
    have := h1 a
    simp only [seenCount] at this
    simp only [List.count_append]
    omega

theorem mark_visited_admits_once_witness :
    Reach 0 [] init
    ∧ ((∀ (v : List String) (t : String),
        ((mark_visited v t).1 = true ↔ t ∉ v) ∧ t ∈ (mark_visited v t).2)
      ∧ (init.queue.map WorkItem.target ++ init.dispatched
          ++ init.dropped).Nodup) :=
  ⟨Relation.ReflTransGen.refl,
    mark_visited_admits_once 0 [] init Relation.ReflTransGen.refl⟩

/-- C2: with `max_tasks = cap > 0`, in every reachable state of a run the
number of work items actually dispatched to the plugin capability is at
most `cap`, over every interleaving — in particular with more workers
than `cap` and with executions that keep discovering new targets. -/
theorem max_tasks_bounds_dispatch (cap : Nat) (ik : Kwargs) (s : OState)
    (h : Reach cap ik s) (hcap : 0 < cap) :
    s.dispatched.length ≤ cap :=
  (reach_inv h).2.2.2.2.2 hcap

theorem max_tasks_bounds_dispatch_witness :
    Reach 1 [] init ∧ 0 < 1 ∧ init.dispatched.length ≤ 1 :=
  ⟨Relation.ReflTransGen.refl, Nat.zero_lt_one,
    max_tasks_bounds_dispatch 1 [] init Relation.ReflTransGen.refl
      Nat.zero_lt_one⟩

/-- C5: a discovered `TaskRequest` processed while the shutdown latch is
true never enqueues anything — the queue is unchanged — even when the
target is newly admitted by the deduplicator (it is then still inserted
into the visited set, but the work item is dropped, never sent). -/
theorem discovery_after_shutdown_dropped (ik : Kwargs) (s : OState)
    (t : TaskRequest) (hsh : s.shutdown = true) :
    (process_yield ik s (.task t)).queue = s.queue
    ∧ (t.target ∉ s.visited →
        (process_yield ik s (.task t)).visited = t.target :: s.visited) := by
  constructor
  · by_cases hv : t.target ∈ s.visited <;> simp [process_yield, hv, hsh]
  · intro hv
    simp [process_yield, hv, hsh]

theorem discovery_after_shutdown_dropped_witness :
    ({ init with shutdown := true } : OState).shutdown = true
    ∧ ((process_yield [] { init with shutdown := true }
          (.task ⟨"x", []⟩)).queue
        = ({ init with shutdown := true } : OState).queue
      ∧ (("x" : String) ∉ ({ init with shutdown := true } : OState).visited →
          (process_yield [] { init with shutdown := true }
            (.task ⟨"x", []⟩)).visited
            = "x" :: ({ init with shutdown := true } : OState).visited)) :=
  ⟨rfl, discovery_after_shutdown_dropped [] { init with shutdown := true }
    ⟨"x", []⟩ rfl⟩

/-- C6: `run` returns an error iff the configured worker count is zero;
with zero workers it returns the pre-flight error before seeding the
queue, and its outcome is independent of the plugin capability (it is
never invoked); with at least one worker it returns `ok` for every plugin
capability, including ones whose executions all fail. -/
theorem run_errors_iff_no_workers
    (p q : String → Kwargs → Except String (List YieldValue))
    (n cap : Nat) (ik : Kwargs) (fuel : Nat) (s : OState)
    (seeds : List String) :
    ((run p n cap ik fuel s seeds).isOk = true ↔ n ≠ 0)
    ∧ (n = 0 → run p n cap ik fuel s seeds
        = Except.error "No workers specified")
    ∧ (n = 0 → run p n cap ik fuel s seeds = run q n cap ik fuel s seeds) := by
  by_cases hn : n = 0
  · simp [run, hn, Except.isOk, Except.toBool]
  · simp [run, hn, Except.isOk, Except.toBool]

theorem run_errors_iff_no_workers_witness :
    ((run (fun _ _ => Except.ok []) 0 0 [] 1 init ["a"]).isOk = true
      ↔ (0 : Nat) ≠ 0)
    ∧ ((0 : Nat) = 0 → run (fun _ _ => Except.ok []) 0 0 [] 1 init ["a"]
        = Except.error "No workers specified")
    ∧ ((0 : Nat) = 0 → run (fun _ _ => Except.ok []) 0 0 [] 1 init ["a"]
        = run (fun _ _ => Except.error "boom") 0 0 [] 1 init ["a"]) :=
  run_errors_iff_no_workers (fun _ _ => Except.ok [])
    (fun _ _ => Except.error "boom") 0 0 [] 1 init ["a"]

/-- C7: the kwargs dispatched for a newly admitted discovery are the
initial kwargs extended by the task's kwargs, the task winning on every
key collision: the merged lookup of any key is the task's binding when
present and otherwise the initial binding; on the spec's example, initial
kwargs a=1, b=1 merged with task kwargs a=2 dispatch a=2, b=1. -/
theorem merge_kwargs_task_wins (ik tk : Kwargs) (k : String)
    (hn : (tk.map Prod.fst).Nodup) :
    (hmGet (merge_kwargs ik tk) k
      = match hmGet tk k with
        | some v => some v
        | none => hmGet ik k)
    ∧ hmGet (merge_kwargs [("a", "1"), ("b", "1")] [("a", "2")]) "a"
        = some "2"
    ∧ hmGet (merge_kwargs [("a", "1"), ("b", "1")] [("a", "2")]) "b"
        = some "1" :=
  ⟨hmGet_hmExtend tk ik k hn, by decide, by decide⟩

theorem merge_kwargs_task_wins_witness :
    (([(("a" : String), ("2" : String))].map Prod.fst).Nodup)
    ∧ ((hmGet (merge_kwargs [("a", "1"), ("b", "1")] [("a", "2")]) "a"
        = match hmGet [(("a" : String), ("2" : String))] "a" with
          | some v => some v
          | none => hmGet [("a", "1"), ("b", "1")] "a")
      ∧ hmGet (merge_kwargs [("a", "1"), ("b", "1")] [("a", "2")]) "a"
          = some "2"
      ∧ hmGet (merge_kwargs [("a", "1"), ("b", "1")] [("a", "2")]) "b"
          = some "1") :=
  ⟨by decide, merge_kwargs_task_wins [("a", "1"), ("b", "1")] [("a", "2")]
    "a" (by decide)⟩

theorem collect_yields_error (pre : List YieldValue) (e : String)
    (post : List (Except String YieldValue)) :
    collect_yields (pre.map Except.ok ++ Except.error e :: post)
      = Except.error e := by
  induction pre with
  | nil => rfl
  | cons y rest ih => simp [collect_yields, ih]

/-- C8: a plugin-capability failure for a target is isolated: the
yield-collection loop of `run_target` turns any failing item into a
failure of the whole call, discarding the partial output collected before
it; the worker's error branch leaves the whole shared state untouched
(no result reaches the aggregator, nothing is enqueued); the failed
target stays in the visited set so it is never re-admitted, hence never
re-queued; and a run whose every execution fails still returns `ok`. -/
theorem plugin_failure_isolated (ik : Kwargs) (s : OState) (e : String)
    (pre : List YieldValue) (post : List (Except String YieldValue)) :
    handle_run_target ik s
        (collect_yields (pre.map Except.ok ++ Except.error e :: post)) = s
    ∧ handle_run_target ik s (Except.error e) = s
    ∧ (∀ t, t ∈ s.visited → (mark_visited s.visited t).1 = false)
    ∧ (∀ (p : String → Kwargs → Except String (List YieldValue))
        (n cap fuel : Nat) (s0 : OState) (seeds : List String),
        n ≠ 0 → (run p n cap ik fuel s0 seeds).isOk = true) := by
  refine ⟨?_, rfl, ?_, ?_⟩
  · rw [collect_yields_error]
    rfl
  · intro t ht
    simp [mark_visited, ht]
  · intro p n cap fuel s0 seeds hn
    simp [run, hn, Except.isOk, Except.toBool]

theorem plugin_failure_isolated_witness :
    handle_run_target [] init
        (collect_yields ([YieldValue.task ⟨"y", []⟩].map Except.ok
          ++ Except.error "boom" :: [])) = init
    ∧ handle_run_target [] init (Except.error "boom") = init
    ∧ (∀ t, t ∈ init.visited → (mark_visited init.visited t).1 = false)
    ∧ (∀ (p : String → Kwargs → Except String (List YieldValue))
        (n cap fuel : Nat) (s0 : OState) (seeds : List String),
        n ≠ 0 → (run p n cap [] fuel s0 seeds).isOk = true) :=
  plugin_failure_isolated [] init "boom" [YieldValue.task ⟨"y", []⟩] []

/-- A four-step run with `max_tasks = 1`: two seeds are admitted, the
first dequeue dispatches, the second dequeue trips the cap. -/
def capstate1 : OState := process_seed [] init "a"

def capstate2 : OState := process_seed [] capstate1 "b"

def capstate3 : OState :=
  dequeue_ticket 1 { capstate2 with queue := [⟨"b", []⟩] } ⟨"a", []⟩

def capstate4 : OState :=
  dequeue_ticket 1 { capstate3 with queue := [] } ⟨"b", []⟩

theorem reach_capstate4 : Reach 1 [] capstate4 := by
  have s1 : Step 1 [] init capstate1 := Step.seed init "a"
  have s2 : Step 1 [] capstate1 capstate2 := Step.seed capstate1 "b"
  have hq2 : capstate2.queue = ⟨"a", []⟩ :: [⟨"b", []⟩] := by decide
  have s3 : Step 1 [] capstate2 capstate3 :=
    Step.deq capstate2 ⟨"a", []⟩ [⟨"b", []⟩] hq2
  have hq3 : capstate3.queue = ⟨"b", []⟩ :: [] := by decide
  have s4 : Step 1 [] capstate3 capstate4 :=
    Step.deq capstate3 ⟨"b", []⟩ [] hq3
  exact (((Relation.ReflTransGen.refl.tail s1).tail s2).tail s3).tail s4

/-- C4 counterexample: in a run with `max_tasks = 1` and seeds a, b, after
the worker that dispatched a and the worker that dequeued b and tripped
the cap, the counter reads 2 while only one work item was dispatched —
the `fetch_add` of line 121 runs before the cap comparison of line 122,
so the cap-tripping dequeue does increase `tasks_processed`, refuting the
claim that the counter always equals the number dispatched. -/
theorem tasks_processed_counterexample :
    Reach 1 [] capstate4
    ∧ capstate4.dispatched.length = 1
    ∧ capstate4.tasks_processed = 2
    ∧ capstate4.tasks_processed ≠ capstate4.dispatched.length :=
  ⟨reach_capstate4, by decide, by decide, by decide⟩

/-- C4 amended: at every point in a run, `tasks_processed` equals the
number of work items actually dequeued — those dispatched to the plugin
capability plus those dequeued by a cap-tripping worker and dropped
without dispatch — so it can exceed the dispatch count by the number of
cap-tripping dequeues. -/
theorem tasks_processed_counts_dequeued (cap : Nat) (ik : Kwargs)
    (s : OState) (h : Reach cap ik s) :
    s.tasks_processed = s.dispatched.length + s.dropped.length :=
  (reach_inv h).2.2.2.2.1

theorem tasks_processed_counts_dequeued_witness :
    Reach 0 [] init
    ∧ init.tasks_processed = init.dispatched.length + init.dropped.length :=
  ⟨Relation.ReflTransGen.refl,
    tasks_processed_counts_dequeued 0 [] init Relation.ReflTransGen.refl⟩

/-- C9: duplicate seeds collapse — after seeding, the queue holds exactly
one work item per distinct seed (its targets are duplicate-free and are
exactly the seed list's members); and in every reachable state the value
of `targets_visited` equals the number of distinct target strings ever
observed during the run (seed occurrences and discovered task targets
alike, including discoveries admitted but dropped at shutdown). -/
theorem targets_visited_counts_distinct (cap : Nat) (ik : Kwargs)
    (ts : List String) (s : OState) (h : Reach cap ik s) :
    ((seed_targets ik init ts).queue.map WorkItem.target).Nodup
    ∧ (∀ t, t ∈ (seed_targets ik init ts).queue.map WorkItem.target
        ↔ t ∈ ts)
    ∧ targets_visited s = s.observed.toFinset.card := by
  obtain ⟨h1s, _, _, _, _, _⟩ :=
    reach_inv (reach_seed_targets cap ik ts init Relation.ReflTransGen.refl)
  obtain ⟨_, _, h3, h4, _, _⟩ := reach_inv h
  refine ⟨?_, ?_, ?_⟩
  · rw [List.nodup_iff_count_le_one]
    intro a
    have := h1s a
    simp only [seenCount] at this
    omega
  · intro t
    have := (seed_targets_mem ik ts init t).1
    simpa [init] using this
  · have hfin : s.visited.toFinset = s.observed.toFinset := by
      apply Finset.ext
      intro x
      simp only [List.mem_toFinset]
      exact h4 x
    calc targets_visited s = s.visited.toFinset.card :=
          (List.toFinset_card_of_nodup h3).symm
      _ = s.observed.toFinset.card := by rw [hfin]

theorem targets_visited_counts_distinct_witness :
    Reach 0 [] init
    ∧ (((seed_targets [] init ["a", "a", "b"]).queue.map
          WorkItem.target).Nodup
      ∧ (∀ t, t ∈ (seed_targets [] init ["a", "a", "b"]).queue.map
            WorkItem.target ↔ t ∈ ["a", "a", "b"])
      ∧ targets_visited init = init.observed.toFinset.card) :=
  ⟨Relation.ReflTransGen.refl,
    targets_visited_counts_distinct 0 [] ["a", "a", "b"] init
      Relation.ReflTransGen.refl⟩

/-- C10: `run` takes the orchestrator's prior shared state as it stands —
nothing is reset — so a second `run` on an instance whose shutdown latch
is already true returns `ok` with exactly the prior results, dispatches
nothing (the dispatch history and the counter are unchanged), keeps the
latch set, deduplicates the new seeds against the prior visited set
(every previously visited target stays visited, and any queued work item
is either prior work or a target not previously visited), while the
visited set and results persist. -/
theorem run_with_latched_shutdown
    (p : String → Kwargs → Except String (List YieldValue))
    (n cap : Nat) (ik : Kwargs) (fuel : Nat) (s : OState)
    (seeds : List String) (hn : n ≠ 0) (hsh : s.shutdown = true) :
    run p n cap ik fuel s seeds = Except.ok (seed_targets ik s seeds)
    ∧ (seed_targets ik s seeds).results = s.results
    ∧ (seed_targets ik s seeds).dispatched = s.dispatched
    ∧ (seed_targets ik s seeds).tasks_processed = s.tasks_processed
    ∧ (seed_targets ik s seeds).shutdown = true
    ∧ (∀ t, t ∈ s.visited → t ∈ (seed_targets ik s seeds).visited)
    ∧ (∀ t, t ∈ (seed_targets ik s seeds).queue.map WorkItem.target →
        t ∈ s.queue.map WorkItem.target ∨ t ∉ s.visited) := by
  have hframe := seed_targets_frame ik seeds s
  have hshut : (seed_targets ik s seeds).shutdown = true :=
    hframe.2.2.2.2.trans hsh
  refine ⟨?_, hframe.1, hframe.2.1, hframe.2.2.2.1, hshut, ?_, ?_⟩
  · unfold run
    rw [if_neg hn, worker_loop_of_shutdown p cap ik fuel _ hshut]
  · intro t ht
    exact seed_targets_visited_mono ik seeds s t ht
  · intro t ht
    have := (seed_targets_mem ik seeds s t).1.mp ht
    tauto

theorem run_with_latched_shutdown_witness :
    (1 : Nat) ≠ 0
    ∧ ({ init with shutdown := true } : OState).shutdown = true
    ∧ (run (fun _ _ => Except.ok []) 1 0 [] 2
          { init with shutdown := true } ["a"]
        = Except.ok (seed_targets [] { init with shutdown := true } ["a"])
      ∧ (seed_targets [] { init with shutdown := true } ["a"]).results
          = ({ init with shutdown := true } : OState).results
      ∧ (seed_targets [] { init with shutdown := true } ["a"]).dispatched
          = ({ init with shutdown := true } : OState).dispatched
      ∧ (seed_targets [] { init with shutdown := true } ["a"]).tasks_processed
          = ({ init with shutdown := true } : OState).tasks_processed
      ∧ (seed_targets [] { init with shutdown := true } ["a"]).shutdown = true
      ∧ (∀ t, t ∈ ({ init with shutdown := true } : OState).visited →
          t ∈ (seed_targets [] { init with shutdown := true } ["a"]).visited)
      ∧ (∀ t, t ∈ (seed_targets [] { init with shutdown := true }
            ["a"]).queue.map WorkItem.target →
          t ∈ ({ init with shutdown := true } : OState).queue.map
            WorkItem.target
          ∨ t ∉ ({ init with shutdown := true } : OState).visited)) :=
  ⟨one_ne_zero, rfl,
    run_with_latched_shutdown (fun _ _ => Except.ok []) 1 0 [] 2
      { init with shutdown := true } ["a"] one_ne_zero rfl⟩

end Valradar
